import Mathlib

/-!
# Verification of the hybrid retrieval core

A shallow embedding of `processing/vector_store.py` (class `VectorStore`) and
`qa/retriever.py` (class `Retriever`), together with proofs about the
behaviour the specification describes.

Modelling conventions:
* Python floats are idealized as real numbers (`ℝ`); float arithmetic in the
  source is exact real arithmetic here, and `np.linalg.norm` is `Real.sqrt`
  of the sum of squares.  Definitions touching `ℝ` are `noncomputable`.
* Python dicts are association lists in insertion order; `dict[k] = v`
  replaces in place (`updAssoc`), `d.setdefault`-style "create then append"
  is `pushAssoc`.  Optional dict keys are `Option` fields; a missing `"name"`
  key in an entity payload is `name = none`.
* Python exceptions unwind without rolling back earlier mutations, so the
  mutating store operations return the state reached at the failure point
  together with a success flag.
* `uuid.uuid4()` suffixes and `datetime.now()` timestamps are opaque to every
  claim; they are modelled by fixed strings.
* Python's stable `list.sort(key=..., reverse=True)` is modelled by a stable
  descending insertion sort (`sortDescBy`); a stable sort is extensionally
  determined by its key, so the algorithm choice is immaterial.
* `str.lower` / `str.isdigit` / `\w` are modelled at ASCII granularity.
-/

set_option maxHeartbeats 1000000

/-- ASCII model of Python `str.lower` on a single character. -/
def lowerChar : Char → Char
  | 'A' => 'a' | 'B' => 'b' | 'C' => 'c' | 'D' => 'd' | 'E' => 'e' | 'F' => 'f'
  | 'G' => 'g' | 'H' => 'h' | 'I' => 'i' | 'J' => 'j' | 'K' => 'k' | 'L' => 'l'
  | 'M' => 'm' | 'N' => 'n' | 'O' => 'o' | 'P' => 'p' | 'Q' => 'q' | 'R' => 'r'
  | 'S' => 's' | 'T' => 't' | 'U' => 'u' | 'V' => 'v' | 'W' => 'w' | 'X' => 'x'
  | 'Y' => 'y' | 'Z' => 'z'
  | c => c

/-- Model of Python `str.lower`. -/
def pyLower (s : String) : String := ⟨s.data.map lowerChar⟩

/-- `leadsWith n h`: the character list `h` starts with `n`. -/
def leadsWith : List Char → List Char → Bool
  | [], _ => true
  | _ :: _, [] => false
  | a :: as, b :: bs => a == b && leadsWith as bs

/-- `hasSub n h`: `n` occurs as a contiguous sublist of `h`. -/
def hasSub : List Char → List Char → Bool
  | n, [] => n.isEmpty
  | n, c :: t => leadsWith n (c :: t) || hasSub n t

/-- Model of Python's `needle in hay` substring test. -/
def strIn (needle hay : String) : Bool := hasSub needle.data hay.data

/-- Association-list lookup (Python `d.get(k)` / `d[k]`). -/
def lookupA {α : Type} (k : String) : List (String × α) → Option α
  | [] => none
  | (k', v) :: rest => if k' = k then some v else lookupA k rest

/-- Python `d[k] = v`: replace in place if the key exists, else append. -/
def updAssoc {α : Type} (k : String) (v : α) : List (String × α) → List (String × α)
  | [] => [(k, v)]
  | (k', v') :: rest => if k' = k then (k, v) :: rest else (k', v') :: updAssoc k v rest

/-- Python `if k not in d: d[k] = []` followed by `d[k].append(v)`. -/
def pushAssoc {α : Type} (k : String) (v : α) : List (String × List α) → List (String × List α)
  | [] => [(k, [v])]
  | (k', vs) :: rest => if k' = k then (k', vs ++ [v]) :: rest else (k', vs) :: pushAssoc k v rest

/-- Python `if k not in d: d[k] = []` on its own (used before the entity loop). -/
def ensureKey {α : Type} (k : String) (d : List (String × List α)) : List (String × List α) :=
  if (lookupA k d).isSome then d else d ++ [(k, [])]

/-! ## Data model -/

/-- A chunk dict.  Input chunks have `document_id`/`document_title` absent
(`none`); `add_document` stores a copy with both set. -/
structure Chunk where
  id : String
  text : String
  embedding : Option (List ℝ)
  metadata : List (String × String)
  document_id : Option String
  document_title : Option String

/-- The per-document metadata record built by `add_document` (the nested
`"metadata"` sub-dict is flattened into the last three fields).  The
`datetime.now()` timestamp is opaque to all claims and modelled as `""`. -/
structure DocMeta where
  id : String
  title : String
  chunk_count : ℕ
  timestamp : String
  total_chunks : ℕ
  entity_count : ℕ
  relationship_count : ℕ

/-- An entity payload record handed to `add_document`; a malformed payload
may be missing its `"name"` key (`name = none`). -/
structure EntityIn where
  name : Option String
  etype : String
  confidence : Option ℝ

/-- A stored entity record: the payload plus `document_id` and `entity_id`. -/
structure EntityRec where
  name : String
  etype : String
  confidence : Option ℝ
  document_id : String
  entity_id : String

/-- A relationship payload record handed to `add_document`. -/
structure RelIn where
  rtype : String
  source : String
  target : String
  confidence : Option ℝ

/-- A stored relationship record. -/
structure RelRec where
  rtype : String
  source : String
  target : String
  confidence : Option ℝ
  document_id : String
  relationship_id : String

/-- The `entities_data` argument of `add_document`:
`entities_data.get("entities", {})` and `entities_data.get("relationships", [])`. -/
structure EntitiesData where
  entities : List (String × List EntityIn)
  relationships : List RelIn

/-- The in-memory store (`VectorStore.__init__`). -/
structure VectorStore where
  documents : List (String × DocMeta)
  chunks : List Chunk
  chunk_index : List (String × Chunk)
  entities : List (String × List EntityRec)
  entities_by_type : List (String × List EntityRec)
  relationships : List RelRec
  relationship_index : List (String × List RelRec)

/-- The empty store. -/
def emptyStore : VectorStore := ⟨[], [], [], [], [], [], []⟩

/-- A match emitted by `search_entities`. -/
structure EntityMatch where
  entity_id : String
  name : String
  etype : String
  confidence : ℝ
  document_id : String
  match_type : String

/-- The `"relationship"` payload attached to graph results. -/
structure RelPayload where
  rtype : String
  source : String
  target : String

/-- A result dict flowing through `search_similar_chunks`,
`semantic_search`, `graph_search`, `combine_and_rank_results` and `search`.
Keys that a given stage has not set are `none`. -/
structure SearchResult where
  chunk_id : String
  text : String
  similarity : ℝ
  document_id : Option String
  document_title : Option String
  metadata : List (String × String)
  search_type : Option String
  search_score : Option ℝ
  final_score : Option ℝ
  related_entity : Option String
  relationship : Option RelPayload
  query : Option String
  query_entities : Option (List String)

/-- The record returned by `get_stats`. -/
structure Stats where
  documents : ℕ
  chunks : ℕ
  entities : ℕ
  relationships : ℕ
  entity_types : ℕ
  storage_type : String

/-! ## VectorStore operations -/

/-- One iteration of the entity loop in `_add_entities`: fails (raises
`KeyError`) iff the `"name"` key is missing; otherwise indexes the record
under its lowercased name and under the payload's type key. -/
def VectorStore.addEntity1 (doc_id ty : String) (st : VectorStore) (e : EntityIn) :
    Option VectorStore :=
  match e.name with
  | none => none
  | some nm =>
    let er : EntityRec :=
      { name := nm, etype := e.etype, confidence := e.confidence,
        document_id := doc_id, entity_id := (pyLower nm) ++ "_id" }
    some { st with
      entities := pushAssoc (pyLower nm) er st.entities,
      entities_by_type := pushAssoc ty er st.entities_by_type }

/-- The inner entity loop of `_add_entities`; on failure the state reached so
far is kept (Python mutates `self` in place and the exception unwinds). -/
def VectorStore.addEntityList (doc_id ty : String) :
    VectorStore → List EntityIn → VectorStore × Bool
  | st, [] => (st, true)
  | st, e :: es =>
    match VectorStore.addEntity1 doc_id ty st e with
    | none => (st, false)
    | some st' => VectorStore.addEntityList doc_id ty st' es

/-- `_add_entities`: for each payload type, first create the (possibly empty)
type bucket, then insert each entity. -/
def VectorStore.add_entities (doc_id : String) :
    VectorStore → List (String × List EntityIn) → VectorStore × Bool
  | st, [] => (st, true)
  | st, (ty, es) :: rest =>
    let st1 := { st with entities_by_type := ensureKey ty st.entities_by_type }
    match VectorStore.addEntityList doc_id ty st1 es with
    | (st2, false) => (st2, false)
    | (st2, true) => VectorStore.add_entities doc_id st2 rest

/-- `_add_relationships`: append each record and index it by lowercased source. -/
def VectorStore.add_relationships (doc_id : String) (st : VectorStore) (rels : List RelIn) :
    VectorStore :=
  rels.foldl (fun s r =>
    let rr : RelRec :=
      { rtype := r.rtype, source := r.source, target := r.target,
        confidence := r.confidence, document_id := doc_id, relationship_id := "rel_id" }
    { s with
      relationships := s.relationships ++ [rr],
      relationship_index := pushAssoc (pyLower r.source) rr s.relationship_index }) st

/-- The document metadata record `add_document` writes. -/
def docRecord (doc_id title : String) (chunks : List Chunk) (ed : EntitiesData) : DocMeta :=
  { id := doc_id, title := title, chunk_count := chunks.length, timestamp := "",
    total_chunks := chunks.length,
    entity_count := (ed.entities.map (fun p => p.2.length)).sum,
    relationship_count := ed.relationships.length }

/-- The `chunk_with_doc` copy made for each stored chunk. -/
def tagChunk (doc_id title : String) (c : Chunk) : Chunk :=
  { c with document_id := some doc_id, document_title := some title }

/-- The chunk loop of `add_document`: append each tagged copy to the global
chunk list and index it by its id. -/
def addChunksFold (doc_id title : String) (chunks : List Chunk) (st : VectorStore) :
    VectorStore :=
  chunks.foldl (fun s c =>
    let cwd := tagChunk doc_id title c
    { s with chunks := s.chunks ++ [cwd], chunk_index := updAssoc c.id cwd s.chunk_index }) st

/-- `add_document`: store the metadata record, append and index the chunks,
then the entities, then the relationships.  Returns the reached state and
the success flag; a failure inside `_add_entities` leaves everything written
before it in place. -/
def VectorStore.add_document (st : VectorStore) (doc_id title : String)
    (chunks : List Chunk) (ed : EntitiesData) : VectorStore × Bool :=
  let st1 := { st with
    documents := updAssoc doc_id (docRecord doc_id title chunks ed) st.documents }
  let st2 := addChunksFold doc_id title chunks st1
  match VectorStore.add_entities doc_id st2 ed.entities with
  | (st3, false) => (st3, false)
  | (st3, true) => (VectorStore.add_relationships doc_id st3 ed.relationships, true)

/-- Dot product of two vectors (`np.dot`; truncates at the shorter length,
but `cosine_similarity` only evaluates it at equal lengths). -/
def dotL (a b : List ℝ) : ℝ := (List.zipWith (fun x y => x * y) a b).sum

/-- Sum of squares of a vector. -/
def sumSq (a : List ℝ) : ℝ := (a.map (fun x => x * x)).sum

/-- `np.linalg.norm`. -/
noncomputable def normL (a : List ℝ) : ℝ := Real.sqrt (sumSq a)

/-- `cosine_similarity`.  `np.dot` raises `ValueError` on mismatched 1-D
shapes, and the `except` branch returns `0.0`, hence the first case.  Zero
norms return exactly `0.0`. -/
noncomputable def cosine_similarity (a b : List ℝ) : ℝ :=
  if a.length ≠ b.length then 0
  else if normL a = 0 ∨ normL b = 0 then 0
  else dotL a b / (normL a * normL b)

/-- The `chunk_similarities` list of `search_similar_chunks`: every chunk
with an embedding, scored, kept iff `similarity >= min_similarity`, in
original chunk order. -/
noncomputable def scoredChunks (st : VectorStore) (q : List ℝ) (m : ℝ) : List SearchResult :=
  st.chunks.filterMap fun c =>
    match c.embedding with
    | none => none
    | some e =>
      let s := cosine_similarity q e
      if m ≤ s then
        some { chunk_id := c.id, text := c.text, similarity := s,
               document_id := c.document_id, document_title := c.document_title,
               metadata := c.metadata, search_type := none, search_score := none,
               final_score := none, related_entity := none, relationship := none,
               query := none, query_entities := none }
      else none

/-- Stable descending insertion by key: `x` goes in front of the first
element strictly below it, so equal keys keep their arrival order. -/
noncomputable def insertDescBy {α : Type} (key : α → ℝ) (x : α) : List α → List α
  | [] => [x]
  | y :: ys => if key y < key x then x :: y :: ys else y :: insertDescBy key x ys

/-- Python's stable `list.sort(key=..., reverse=True)`. -/
noncomputable def sortDescBy {α : Type} (key : α → ℝ) (l : List α) : List α :=
  l.foldl (fun acc x => insertDescBy key x acc) []

/-- `search_similar_chunks`. -/
noncomputable def VectorStore.search_similar_chunks (st : VectorStore) (q : List ℝ)
    (top_k : ℕ) (min_similarity : ℝ) : List SearchResult :=
  if st.chunks.isEmpty then []
  else (sortDescBy (fun r => r.similarity) (scoredChunks st q min_similarity)).take top_k

/-- The inner term loop of `search_entities`: thanks to the `break`, a stored
record matches iff some lowercased term is a substring of its lowercased
name or vice versa, and it is emitted at most once. -/
def entityMatchB (terms_lower : List String) (e : EntityRec) : Bool :=
  terms_lower.any fun t => strIn t (pyLower e.name) || strIn (pyLower e.name) t

/-- The type keys `search_entities` iterates: the caller's list if truthy
(non-`None` and non-empty), else every stored type key. -/
def searchedTypeKeys (st : VectorStore) (entity_types : Option (List String)) : List String :=
  match entity_types with
  | some ts => if ts.isEmpty then st.entities_by_type.map Prod.fst else ts
  | none => st.entities_by_type.map Prod.fst

/-- The match record `search_entities` emits. -/
def mkEntityMatch (e : EntityRec) : EntityMatch :=
  { entity_id := e.entity_id, name := e.name, etype := e.etype,
    confidence := e.confidence.getD 0, document_id := e.document_id,
    match_type := "name_match" }

/-- `search_entities`. -/
def VectorStore.search_entities (st : VectorStore) (query_terms : List String)
    (entity_types : Option (List String)) : List EntityMatch :=
  let tl := query_terms.map pyLower
  (searchedTypeKeys st entity_types).foldl (fun acc ty =>
    match lookupA ty st.entities_by_type with
    | none => acc
    | some es => acc ++ (es.filter (entityMatchB tl)).map mkEntityMatch) []

/-- `get_entity_relationships`: linear scan for the lowercased entity name as
a substring of the lowercased source or target. -/
def VectorStore.get_entity_relationships (st : VectorStore) (entity_name : String) :
    List RelRec :=
  st.relationships.filter fun r =>
    strIn (pyLower entity_name) (pyLower r.source) ||
      strIn (pyLower entity_name) (pyLower r.target)

/-- `get_stats`. -/
def VectorStore.get_stats (st : VectorStore) : Stats :=
  { documents := st.documents.length, chunks := st.chunks.length,
    entities := (st.entities_by_type.map (fun p => p.2.length)).sum,
    relationships := st.relationships.length,
    entity_types := st.entities_by_type.length,
    storage_type := "in_memory" }

/-- `clear_storage`. -/
def VectorStore.clear_storage (_ : VectorStore) : VectorStore := emptyStore

/-! ## Retriever operations -/

/-- `Retriever.__init__`: weight for semantic search. -/
noncomputable def Retriever.semantic_weight : ℝ := 0.7

/-- `Retriever.__init__`: weight for graph search. -/
noncomputable def Retriever.graph_weight : ℝ := 0.3

/-- `Retriever.__init__`. -/
def Retriever.max_semantic_results : ℕ := 5

/-- `Retriever.__init__`. -/
def Retriever.max_graph_results : ℕ := 3

/-- `Retriever.__init__`. -/
noncomputable def Retriever.min_similarity_threshold : ℝ := 0.1

/-- The stop-word set of `extract_query_entities`. -/
def Retriever.stop_words : List String :=
  ["what", "who", "where", "when", "why", "how", "is", "are", "was", "were",
   "the", "a", "an", "and", "or", "but", "in", "on", "at", "to", "for",
   "of", "with", "by", "from", "about", "into", "through", "during",
   "before", "after", "above", "below", "up", "down", "out", "off",
   "over", "under", "again", "further", "then", "once", "can", "could",
   "should", "would", "may", "might", "must", "shall", "will", "do",
   "does", "did", "has", "have", "had", "been", "being", "get", "got"]

/-- A regex `\w` character (ASCII model). -/
def isWordChar (c : Char) : Bool := c.isAlphanum || c == '_'

/-- Helper for `tokenize`: accumulates the current (reversed) token. -/
def tokAux : List Char → List Char → List (List Char)
  | cur, [] => if cur.isEmpty then [] else [cur.reverse]
  | cur, c :: cs =>
    if isWordChar c then tokAux (c :: cur) cs
    else if cur.isEmpty then tokAux [] cs
    else cur.reverse :: tokAux [] cs

/-- `re.findall(r'\b\w+\b', s)`: the maximal runs of word characters. -/
def tokenize (s : String) : List String := (tokAux [] s.data).map String.mk

/-- Python `str.isdigit` (ASCII model). -/
def allDigits (s : String) : Bool := !s.data.isEmpty && s.data.all Char.isDigit

/-- Parse one `[A-Z][a-z]+` word that ends at a word boundary; return the
word and the rest.  A candidate whose lowercase run stops in front of a
further word character cannot satisfy the trailing `\b`, so it fails. -/
def capWordP : List Char → Option (List Char × List Char)
  | [] => none
  | c :: cs =>
    if c.isUpper then
      let p := List.span Char.isLower cs
      if p.1.isEmpty then none
      else
        match p.2 with
        | [] => some (c :: p.1, [])
        | d :: _ => if isWordChar d then none else some (c :: p.1, p.2)
    else none

/-- Greedy `(?:\s+[A-Z][a-z]+)*` continuation; returns the consumed
characters (with their original whitespace) and the rest. -/
def capCont : ℕ → List Char → List Char × List Char
  | 0, l => ([], l)
  | fuel + 1, l =>
    let w := List.span Char.isWhitespace l
    if w.1.isEmpty then ([], l)
    else
      match capWordP w.2 with
      | none => ([], l)
      | some (word, rest) =>
        let m := capCont fuel rest
        (w.1 ++ word ++ m.1, m.2)

/-- Scan for non-overlapping matches of `\b[A-Z][a-z]+(?:\s+[A-Z][a-z]+)*\b`;
`atB` records whether the current position is a word boundary.  Fuel is the
input length: every step either consumes the matched characters or one
character. -/
def capScan : ℕ → Bool → List Char → List (List Char)
  | 0, _, _ => []
  | _ + 1, _, [] => []
  | fuel + 1, atB, c :: cs =>
    if atB then
      match capWordP (c :: cs) with
      | some (word, rest) =>
        let m := capCont fuel rest
        (word ++ m.1) :: capScan fuel false m.2
      | none => capScan fuel (!isWordChar c) cs
    else capScan fuel (!isWordChar c) cs

/-- `re.findall(r'\b[A-Z][a-z]+(?:\s+[A-Z][a-z]+)*\b', q)`. -/
def capitalizedRuns (q : String) : List String :=
  (capScan (q.data.length + 1) true q.data).map String.mk

/-- The final dedup loop of `extract_query_entities` (first occurrence wins). -/
def dedupFirst : List String → List String → List String
  | _, [] => []
  | seen, x :: xs =>
    if seen.contains x then dedupFirst seen xs
    else x :: dedupFirst (x :: seen) xs

/-- `extract_query_entities`. -/
def Retriever.extract_query_entities (query : String) : List String :=
  let words := tokenize (pyLower query)
  let entities := words.filter fun w =>
    decide (2 < w.length) && !(Retriever.stop_words.contains w) && !allDigits w
  let caps := (capitalizedRuns query).map pyLower
  dedupFirst [] (entities ++ caps)

/-- `semantic_search`: vector search plus the `search_type`/`search_score`
annotations. -/
noncomputable def Retriever.semantic_search (query_embedding : List ℝ) (st : VectorStore) :
    List SearchResult :=
  (st.search_similar_chunks query_embedding Retriever.max_semantic_results
      Retriever.min_similarity_threshold).map fun r =>
    { r with search_type := some "semantic", search_score := some r.similarity }

/-- The running state of the `graph_search` loops: accumulated results and
the `seen_chunks` set. -/
structure GAcc where
  results : List SearchResult
  seen : List String

/-- The innermost chunk loop body of `graph_search`. -/
noncomputable def graphChunkStep (em : EntityMatch) (rel : RelRec) (acc : GAcc) (c : Chunk) :
    GAcc :=
  if acc.seen.contains c.id then acc
  else
    let tl := pyLower c.text
    let cs := strIn (pyLower rel.source) tl
    let ct := strIn (pyLower rel.target) tl
    if cs || ct then
      let score := (if cs && ct then (0.9 : ℝ) else 0.6) + rel.confidence.getD 0 * 0.1
      { results := acc.results ++
          [{ chunk_id := c.id, text := c.text, similarity := score,
             document_id := c.document_id, document_title := c.document_title,
             metadata := c.metadata, search_type := some "graph",
             search_score := some score, final_score := none,
             related_entity := some em.name,
             relationship := some { rtype := rel.rtype, source := rel.source,
                                    target := rel.target },
             query := none, query_entities := none }],
        seen := acc.seen ++ [c.id] }
    else acc

/-- The full nested loops of `graph_search`, before sorting and truncation. -/
noncomputable def graphRaw (st : VectorStore) (query_entities : List String) : GAcc :=
  (st.search_entities query_entities none).foldl (fun acc em =>
    (st.get_entity_relationships em.name).foldl (fun acc2 rel =>
      st.chunks.foldl (graphChunkStep em rel) acc2) acc) ⟨[], []⟩

/-- `graph_search`. -/
noncomputable def Retriever.graph_search (query_entities : List String) (st : VectorStore) :
    List SearchResult :=
  (sortDescBy (fun r => r.search_score.getD 0) (graphRaw st query_entities).results).take
    Retriever.max_graph_results

/-- The duplicate-boost loop of `combine_and_rank_results`: add the weighted
graph score to the first entry with the same chunk id, relabel it `"hybrid"`
and attach the relationship payload. -/
noncomputable def boostFirst (g : SearchResult) : List SearchResult → List SearchResult
  | [] => []
  | r :: rs =>
    if r.chunk_id = g.chunk_id then
      { r with
        final_score := some (r.final_score.getD 0 +
          g.search_score.getD 0 * Retriever.graph_weight),
        search_type := some "hybrid",
        relationship := if g.relationship.isSome then g.relationship
                        else r.relationship } :: rs
    else r :: boostFirst g rs

/-- `combine_and_rank_results`.  A result dict without a `"search_score"` key
would raise `KeyError`, and the `except` branch returns `semantic_results`
unchanged, hence the guard. -/
noncomputable def Retriever.combine_and_rank_results
    (semantic_results graph_results : List SearchResult) : List SearchResult :=
  if semantic_results.all (fun r => r.search_score.isSome) &&
      graph_results.all (fun r => r.search_score.isSome) then
    let seeded := semantic_results.map fun r =>
      { r with final_score := some (r.search_score.getD 0 * Retriever.semantic_weight) }
    let seen := semantic_results.map fun r => r.chunk_id
    let merged := graph_results.foldl (fun acc g =>
      if seen.contains g.chunk_id then boostFirst g acc
      else acc ++ [{ g with
        final_score := some (g.search_score.getD 0 * Retriever.graph_weight) }]) seeded
    (sortDescBy (fun r => r.final_score.getD 0) merged).take
      (Retriever.max_semantic_results + Retriever.max_graph_results)
  else semantic_results

/-- `search`: hybrid entry point; a missing query embedding yields empty
semantic results, the rest of the pipeline runs regardless. -/
noncomputable def Retriever.search (query : String) (st : VectorStore)
    (query_embedding : Option (List ℝ)) : List SearchResult :=
  let semantic_results :=
    match query_embedding with
    | none => []
    | some qe => Retriever.semantic_search qe st
  let query_entities := Retriever.extract_query_entities query
  let graph_results := Retriever.graph_search query_entities st
  let final_results := Retriever.combine_and_rank_results semantic_results graph_results
  final_results.map fun r =>
    { r with query := some query, query_entities := some query_entities }

/-! ## Derived definitions used by the statements -/

/-- Total number of stored entity records sitting in the given type buckets. -/
def entityCountIn (st : VectorStore) (tys : List String) : ℕ :=
  (tys.map (fun t => ((lookupA t st.entities_by_type).getD []).length)).sum

/-- A well-formed `entities_data` payload: every entity carries a `"name"`. -/
def wfPayload (ed : EntitiesData) : Prop :=
  ∀ p ∈ ed.entities, ∀ e ∈ p.2, e.name.isSome

/-- The property every raw graph result satisfies: it was scored from some
stored relationship as `0.9`/`0.6` (both endpoints in the chunk text / just
one) plus the uncapped `confidence * 0.1` bonus. -/
def GraphScoreSpec (st : VectorStore) (res : SearchResult) : Prop :=
  ∃ rel ∈ st.relationships,
    res.relationship = some { rtype := rel.rtype, source := rel.source,
                              target := rel.target } ∧
    (strIn (pyLower rel.source) (pyLower res.text) ||
      strIn (pyLower rel.target) (pyLower res.text)) = true ∧
    res.similarity =
      (if strIn (pyLower rel.source) (pyLower res.text) &&
          strIn (pyLower rel.target) (pyLower res.text) then (0.9 : ℝ) else 0.6) +
        rel.confidence.getD 0 * 0.1 ∧
    res.search_score = some res.similarity ∧
    res.search_type = some "graph"

/-! ## Concrete data for the closed instances -/

/-- A chunk whose embedding matches the probe query's dimension. -/
noncomputable def chA : Chunk := ⟨"a", "good", some [1, 0], [], some "d", some "T"⟩

/-- A chunk whose embedding does not match the probe query's dimension. -/
noncomputable def chB : Chunk := ⟨"b", "bad", some [1], [], some "d", some "T"⟩

/-- A store holding only the well-sized chunk. -/
noncomputable def stGood : VectorStore := ⟨[], [chA], [("a", chA)], [], [], [], []⟩

/-- A store holding only the mis-sized chunk. -/
noncomputable def stBad : VectorStore := ⟨[], [chB], [("b", chB)], [], [], [], []⟩

/-- The probe query embedding (dimension 2). -/
noncomputable def qW : List ℝ := [1, 0]

/-- The result `search_similar_chunks` produces from `chA`. -/
noncomputable def resA : SearchResult :=
  ⟨"a", "good", cosine_similarity qW [1, 0], some "d", some "T", [],
    none, none, none, none, none, none, none⟩

/-- The result `search_similar_chunks` produces from the mis-sized `chB`. -/
noncomputable def resB : SearchResult :=
  ⟨"b", "bad", cosine_similarity qW [1], some "d", some "T", [],
    none, none, none, none, none, none, none⟩

/-- A stored entity for the graph-search instances. -/
noncomputable def entW : EntityRec := ⟨"alice", "PERSON", some 1, "d1", "alice_id"⟩

/-- A stored relationship with out-of-range confidence 2 (nothing validates
confidence, which exhibits the uncapped bonus pushing a score above 1). -/
noncomputable def relW : RelRec := ⟨"WORKS_AT", "alice", "acme", some 2, "d1", "rel_id"⟩

/-- A chunk mentioning both endpoints of `relW`. -/
noncomputable def chW : Chunk := ⟨"c1", "alice acme", none, [], some "d1", some "T"⟩

/-- A store wired up for a graph-only search on the query `"alice"`. -/
noncomputable def stW : VectorStore :=
  ⟨[], [chW], [("c1", chW)], [("alice", [entW])], [("PERSON", [entW])],
    [relW], [("alice", [relW])]⟩

/-- The graph score of `chW` against `relW`: both endpoints present. -/
noncomputable def scoreW : ℝ := 0.9 + 2 * 0.1

/-- The raw graph result for `chW`. -/
noncomputable def resW : SearchResult :=
  ⟨"c1", "alice acme", scoreW, some "d1", some "T", [], some "graph",
    some scoreW, none, some "alice", some ⟨"WORKS_AT", "alice", "acme"⟩,
    none, none⟩

/-- The final result `search "alice" stW none` returns. -/
noncomputable def resW2 : SearchResult :=
  ⟨"c1", "alice acme", scoreW, some "d1", some "T", [], some "graph",
    some scoreW, some (scoreW * Retriever.graph_weight), some "alice",
    some ⟨"WORKS_AT", "alice", "acme"⟩, some "alice", some ["alice"]⟩

/-- A semantic result for the fusion instance (similarity 0.8). -/
noncomputable def semW : SearchResult :=
  ⟨"c", "t", 0.8, some "d", some "T", [], some "semantic", some 0.8,
    none, none, none, none, none⟩

/-- A graph result for the same chunk (score 0.9). -/
noncomputable def gW : SearchResult :=
  ⟨"c", "t", 0.9, some "d", some "T", [], some "graph", some 0.9,
    none, some "e", some ⟨"R", "s", "t"⟩, none, none⟩

/-- An input chunk for the ingestion instances. -/
def chC1 : Chunk := ⟨"x1", "tx", none, [], none, none⟩

/-- A malformed entity payload: the single entity has no `"name"` key. -/
def edBad : EntitiesData := ⟨[("PERSON", [⟨none, "PERSON", none⟩])], []⟩

/-- A well-formed entity payload. -/
def edOk : EntitiesData :=
  ⟨[("PERSON", [⟨some "Bob", "PERSON", none⟩])], [⟨"KNOWS", "Bob", "Ann", none⟩]⟩

/-! ## Generic lemmas about the stable sort and folds -/

/-- Inserting is a permutation. -/
theorem insertDescBy_perm {α : Type} (key : α → ℝ) (x : α) (l : List α) :
    List.Perm (insertDescBy key x l) (x :: l) := by
  induction l with
  | nil => simp [insertDescBy]
  | cons y ys ih =>
    by_cases h : key y < key x
    · simp [insertDescBy, h]
    · simp only [insertDescBy, if_neg h]
      exact (List.Perm.cons y ih).trans (List.Perm.swap x y ys)

/-- Inserting preserves descending sortedness. -/
theorem pairwise_insertDescBy {α : Type} (key : α → ℝ) (x : α) (l : List α)
    (h : l.Pairwise (fun a b => key b ≤ key a)) :
    (insertDescBy key x l).Pairwise (fun a b => key b ≤ key a) := by
  induction l with
  | nil => simp [insertDescBy]
  | cons y ys ih =>
    rcases List.pairwise_cons.mp h with ⟨hy, hys⟩
    by_cases hlt : key y < key x
    · simp only [insertDescBy, if_pos hlt]
      refine List.pairwise_cons.mpr ⟨?_, List.pairwise_cons.mpr ⟨hy, hys⟩⟩
      intro z hz
      rcases List.mem_cons.mp hz with rfl | hz'
      · exact le_of_lt hlt
      · exact le_trans (hy z hz') (le_of_lt hlt)
    · simp only [insertDescBy, if_neg hlt]
      refine List.pairwise_cons.mpr ⟨?_, ih hys⟩
      intro z hz
      rcases List.mem_cons.mp ((insertDescBy_perm key x ys).mem_iff.mp hz) with rfl | hz'
      · exact not_lt.mp hlt
      · exact hy z hz'

/-- Filtering for a key value below everything in the list gives nothing. -/
theorem filter_key_eq_nil {α : Type} (key : α → ℝ) (s : ℝ) (l : List α)
    (h : ∀ z ∈ l, key z < s) :
    l.filter (fun y => decide (key y = s)) = [] := by
  induction l with
  | nil => rfl
  | cons a as ih =>
    have ha : key a ≠ s := ne_of_lt (h a (List.mem_cons_self a as))
    simp only [List.filter_cons, decide_eq_true_eq, ha, if_false]
    exact ih fun z hz => h z (List.mem_cons_of_mem a hz)

/-- Stability at the single-insertion level: into a sorted list, an element
with key `s` lands behind every present element with key `s`. -/
theorem filter_insertDescBy {α : Type} (key : α → ℝ) (s : ℝ) (x : α) (l : List α)
    (h : l.Pairwise (fun a b => key b ≤ key a)) :
    (insertDescBy key x l).filter (fun y => decide (key y = s)) =
      if key x = s then l.filter (fun y => decide (key y = s)) ++ [x]
      else l.filter (fun y => decide (key y = s)) := by
  induction l with
  | nil => by_cases hx : key x = s <;> simp [insertDescBy, hx]
  | cons y ys ih =>
    rcases List.pairwise_cons.mp h with ⟨hy, hys⟩
    by_cases hlt : key y < key x
    · simp only [insertDescBy, if_pos hlt]
      by_cases hx : key x = s
      · have hnil : (y :: ys).filter (fun z => decide (key z = s)) = [] := by
          refine filter_key_eq_nil key s (y :: ys) ?_
          intro z hz
          rcases List.mem_cons.mp hz with rfl | hz'
          · exact hx ▸ hlt
          · exact lt_of_le_of_lt (hy z hz') (hx ▸ hlt)
        simp [List.filter_cons, hx, hnil]
      · simp [List.filter_cons, hx]
    · simp only [insertDescBy, if_neg hlt]
      have ihh := ih hys
      by_cases hx : key x = s <;> by_cases hyx : key y = s <;>
        simp [List.filter_cons, hx, hyx, ihh]

/-- The insert-fold behind `sortDescBy`: sortedness, permutation and
key-level stability, all at once. -/
theorem sortFold_props {α : Type} (key : α → ℝ) (s : ℝ) :
    ∀ (l acc : List α), acc.Pairwise (fun a b => key b ≤ key a) →
      ((l.foldl (fun a x => insertDescBy key x a) acc).Pairwise
          (fun a b => key b ≤ key a) ∧
        List.Perm (l.foldl (fun a x => insertDescBy key x a) acc) (l ++ acc)) ∧
      (l.foldl (fun a x => insertDescBy key x a) acc).filter
          (fun y => decide (key y = s)) =
        acc.filter (fun y => decide (key y = s)) ++
          l.filter (fun y => decide (key y = s))
  | [], acc, h => ⟨⟨h, by simp⟩, by simp⟩
  | x :: xs, acc, h => by
    have hpw := pairwise_insertDescBy key x acc h
    obtain ⟨⟨h1, h2⟩, h3⟩ := sortFold_props key s xs (insertDescBy key x acc) hpw
    refine ⟨⟨h1, ?_⟩, ?_⟩
    · refine h2.trans ?_
      refine (List.Perm.append_left xs (insertDescBy_perm key x acc)).trans ?_
      exact List.perm_middle
    · simp only [List.foldl_cons]
      rw [h3, filter_insertDescBy key s x acc h]
      by_cases hx : key x = s <;> simp [List.filter_cons, hx]

/-- `sortDescBy` sorts descending by key. -/
theorem sortDescBy_pairwise {α : Type} (key : α → ℝ) (l : List α) :
    (sortDescBy key l).Pairwise (fun a b => key b ≤ key a) :=
  ((sortFold_props key 0 l [] (by simp)).1).1

/-- `sortDescBy` permutes its input. -/
theorem sortDescBy_perm {α : Type} (key : α → ℝ) (l : List α) :
    List.Perm (sortDescBy key l) l := by
  have := ((sortFold_props key 0 l [] (by simp)).1).2
  simpa [sortDescBy] using this

/-- Stability of `sortDescBy`: the elements at any fixed key value keep
their original relative order. -/
theorem sortDescBy_filter_key {α : Type} (key : α → ℝ) (s : ℝ) (l : List α) :
    (sortDescBy key l).filter (fun y => decide (key y = s)) =
      l.filter (fun y => decide (key y = s)) := by
  have := (sortFold_props key s l [] (by simp)).2
  simpa [sortDescBy] using this

/-- Invariants are preserved along `List.foldl`. -/
theorem foldl_preserve {α β : Type} (P : β → Prop) (f : β → α → β) :
    ∀ (l : List α) (b : β), P b → (∀ b' a, P b' → a ∈ l → P (f b' a)) →
      P (l.foldl f b)
  | [], _, hb, _ => hb
  | x :: xs, b, hb, hf =>
    foldl_preserve P f xs (f b x) (hf b x hb (List.mem_cons_self x xs))
      fun b' a hb' ha => hf b' a hb' (List.mem_cons_of_mem x ha)

/-! ## Helper lemmas -/

/-- Each type bucket contributes at most its own record count to
`search_entities`' output. -/
theorem searchEntitiesFold_length (st : VectorStore) (tl : List String) :
    ∀ (keys : List String) (acc : List EntityMatch),
      (keys.foldl (fun acc2 ty =>
        match lookupA ty st.entities_by_type with
        | none => acc2
        | some es => acc2 ++ (es.filter (entityMatchB tl)).map mkEntityMatch) acc).length ≤
      acc.length + entityCountIn st keys
  | [], acc => by
    simp only [List.foldl_nil, entityCountIn, List.map_nil, List.sum_nil]
    omega
  | ty :: rest, acc => by
    simp only [List.foldl_cons]
    cases h : lookupA ty st.entities_by_type with
    | none =>
      have ih := searchEntitiesFold_length st tl rest acc
      simp only [entityCountIn, List.map_cons, List.sum_cons, h, Option.getD_none,
        List.length_nil] at ih ⊢
      omega
    | some es =>
      have ih := searchEntitiesFold_length st tl rest
        (acc ++ (es.filter (entityMatchB tl)).map mkEntityMatch)
      have hf : (es.filter (entityMatchB tl)).length ≤ es.length :=
        List.length_filter_le _ _
      simp only [entityCountIn, List.map_cons, List.sum_cons, h, Option.getD_some,
        List.length_append, List.length_map] at ih ⊢
      omega

/-- `lowerChar` either fixes its argument or yields a lowercase letter. -/
theorem lowerChar_cases (c : Char) :
    lowerChar c = c ∨ lowerChar c ∈
      ['a', 'b', 'c', 'd', 'e', 'f', 'g', 'h', 'i', 'j', 'k', 'l', 'm',
       'n', 'o', 'p', 'q', 'r', 's', 't', 'u', 'v', 'w', 'x', 'y', 'z'] := by
  unfold lowerChar
  split <;> first | exact Or.inl rfl | exact Or.inr (by decide)

/-- Lowercase letters are fixed points of `lowerChar`. -/
theorem lowerChar_of_lower :
    ∀ c ∈ ['a', 'b', 'c', 'd', 'e', 'f', 'g', 'h', 'i', 'j', 'k', 'l', 'm',
           'n', 'o', 'p', 'q', 'r', 's', 't', 'u', 'v', 'w', 'x', 'y', 'z'],
      lowerChar c = c := by decide

/-- Lowercasing a character twice is the same as doing it once. -/
theorem lowerChar_lowerChar (c : Char) : lowerChar (lowerChar c) = lowerChar c := by
  rcases lowerChar_cases c with h | h
  · rw [h]
    exact h
  · exact lowerChar_of_lower _ h

/-- `pyLower` is idempotent. -/
theorem pyLower_pyLower (s : String) : pyLower (pyLower s) = pyLower s := by
  unfold pyLower
  refine congrArg String.mk ?_
  show ((s.data.map lowerChar).map lowerChar) = s.data.map lowerChar
  rw [List.map_map]
  exact List.map_congr_left fun c _ => lowerChar_lowerChar c

/-- Every character of a string already lowered is fixed by `lowerChar`. -/
theorem lowerChar_fixed_of_mem_pyLower {q : String} {c : Char}
    (hc : c ∈ (pyLower q).data) : lowerChar c = c := by
  simp only [pyLower] at hc
  rcases List.mem_map.mp hc with ⟨c', _, rfl⟩
  exact lowerChar_lowerChar c'

/-- The characters of every token come from the accumulator or the input. -/
theorem tokAux_chars :
    ∀ (cur l : List Char), ∀ t ∈ tokAux cur l, ∀ c ∈ t, c ∈ cur ∨ c ∈ l
  | cur, [] => by
    intro t ht c hct
    by_cases h : cur.isEmpty <;> simp only [tokAux, h, if_true, if_false] at ht
    · cases ht
    · rcases List.mem_singleton.mp ht with rfl
      exact Or.inl (List.mem_reverse.mp hct)
  | cur, c0 :: cs => by
    intro t ht c hct
    by_cases h : isWordChar c0
    · simp only [tokAux, h, if_true] at ht
      rcases tokAux_chars (c0 :: cur) cs t ht c hct with h1 | h1
      · rcases List.mem_cons.mp h1 with rfl | h2
        · exact Or.inr (List.mem_cons_self _ _)
        · exact Or.inl h2
      · exact Or.inr (List.mem_cons_of_mem _ h1)
    · simp only [tokAux, h, if_false] at ht
      by_cases hcur : cur.isEmpty
      · simp only [hcur, if_true] at ht
        rcases tokAux_chars [] cs t ht c hct with h1 | h1
        · cases h1
        · exact Or.inr (List.mem_cons_of_mem _ h1)
      · simp only [hcur, if_false] at ht
        rcases List.mem_cons.mp ht with rfl | ht'
        · exact Or.inl (List.mem_reverse.mp hct)
        · rcases tokAux_chars [] cs t ht' c hct with h1 | h1
          · cases h1
          · exact Or.inr (List.mem_cons_of_mem _ h1)

/-- Every token of an already-lowered string is fixed by `pyLower`. -/
theorem tokenize_pyLower_fixed {q : String} {t : String}
    (ht : t ∈ tokenize (pyLower q)) : pyLower t = t := by
  simp only [tokenize] at ht
  rcases List.mem_map.mp ht with ⟨tc, htc, rfl⟩
  refine congrArg String.mk ?_
  show tc.map lowerChar = tc
  have hchars := tokAux_chars [] (pyLower q).data tc htc
  calc tc.map lowerChar = tc.map id := by
        refine List.map_congr_left fun c hc => ?_
        rcases hchars c hc with h | h
        · cases h
        · exact lowerChar_fixed_of_mem_pyLower h
    _ = tc := List.map_id tc

/-- `dedupFirst` emits only elements of its input. -/
theorem dedupFirst_subset :
    ∀ (seen l : List String) (x : String), x ∈ dedupFirst seen l → x ∈ l
  | _, [], _, h => by cases h
  | seen, y :: ys, x, h => by
    by_cases hy : seen.contains y
    · simp only [dedupFirst, hy, if_true] at h
      exact List.mem_cons_of_mem _ (dedupFirst_subset seen ys x h)
    · simp only [dedupFirst, hy, if_false] at h
      rcases List.mem_cons.mp h with rfl | h'
      · exact List.mem_cons_self _ _
      · exact List.mem_cons_of_mem _ (dedupFirst_subset (y :: seen) ys x h')

/-- `dedupFirst` produces no duplicates, and nothing already seen. -/
theorem dedupFirst_nodup :
    ∀ (seen l : List String),
      (dedupFirst seen l).Nodup ∧ ∀ x ∈ dedupFirst seen l, seen.contains x = false
  | _, [] => ⟨List.nodup_nil, by intro x hx; cases hx⟩
  | seen, y :: ys => by
    by_cases hy : seen.contains y
    · simp only [dedupFirst, hy, if_true]
      exact dedupFirst_nodup seen ys
    · simp only [dedupFirst, hy, if_false]
      obtain ⟨hn, hs⟩ := dedupFirst_nodup (y :: seen) ys
      constructor
      · refine List.nodup_cons.mpr ⟨?_, hn⟩
        intro hmem
        have := hs y hmem
        simp [List.contains_cons] at this
      · intro x hx
        rcases List.mem_cons.mp hx with rfl | hx'
        · exact Bool.eq_false_iff.mpr hy
        · have := hs x hx'
          simp only [List.contains_cons, Bool.or_eq_false_iff] at this
          exact this.2

/-- Sums of squares are nonnegative. -/
theorem sumSq_nonneg (a : List ℝ) : 0 ≤ sumSq a := by
  induction a with
  | nil => simp [sumSq]
  | cons x xs ih =>
    have : sumSq (x :: xs) = x * x + sumSq xs := by simp [sumSq]
    rw [this]
    exact add_nonneg (mul_self_nonneg x) ih

/-- Cauchy–Schwarz for list dot products, squared form. -/
theorem dotL_sq_le (a : List ℝ) : ∀ b : List ℝ, (dotL a b) ^ 2 ≤ sumSq a * sumSq b := by
  induction a with
  | nil =>
    intro b
    simp [dotL, sumSq]
  | cons x xs ih =>
    intro b
    cases b with
    | nil => simp [dotL, sumSq]
    | cons y ys =>
      have hd : dotL (x :: xs) (y :: ys) = x * y + dotL xs ys := by simp [dotL]
      have hA : sumSq (x :: xs) = x * x + sumSq xs := by simp [sumSq]
      have hB : sumSq (y :: ys) = y * y + sumSq ys := by simp [sumSq]
      rw [hd, hA, hB]
      have hXY := ih ys
      have hX := sumSq_nonneg xs
      have hY := sumSq_nonneg ys
      rcases eq_or_lt_of_le hY with hY0 | hYpos
      · have hd0 : dotL xs ys = 0 := by nlinarith [sq_nonneg (dotL xs ys)]
        rw [hd0, ← hY0]
        nlinarith [mul_nonneg hX (mul_self_nonneg y)]
      · nlinarith [sq_nonneg (sumSq ys * x - y * dotL xs ys),
          mul_nonneg (sub_nonneg.mpr hXY) (add_nonneg (mul_self_nonneg y) hY),
          hYpos]

/-- Provenance of scored chunks: each comes from a stored chunk with an
embedding, scored by `cosine_similarity` and at or above the threshold. -/
theorem mem_scoredChunks {st : VectorStore} {q : List ℝ} {m : ℝ} {r : SearchResult}
    (hr : r ∈ scoredChunks st q m) :
    ∃ c ∈ st.chunks, ∃ e, c.embedding = some e ∧ r.chunk_id = c.id ∧
      r.text = c.text ∧ r.similarity = cosine_similarity q e ∧ m ≤ r.similarity := by
  rcases List.mem_filterMap.mp hr with ⟨c, hc, heq⟩
  refine ⟨c, hc, ?_⟩
  cases hemb : c.embedding with
  | none => rw [hemb] at heq; cases heq
  | some e =>
    rw [hemb] at heq
    by_cases hm : m ≤ cosine_similarity q e
    · simp only [hm, if_true, Option.some.injEq] at heq
      subst heq
      exact ⟨e, rfl, rfl, rfl, rfl, hm⟩
    · simp [hm] at heq

/-! ## Claims -/

/-- **C9.** `search_entities` emits at most one match per stored entity
record per invocation — the `break` stops after the first matching query
term — so the output length never exceeds the number of stored entity
records in the searched types. -/
theorem search_entities_at_most_one_match_per_record (st : VectorStore)
    (query_terms : List String) (entity_types : Option (List String)) :
    (st.search_entities query_terms entity_types).length ≤
      entityCountIn st (searchedTypeKeys st entity_types) := by
  have h := searchEntitiesFold_length st (query_terms.map pyLower)
    (searchedTypeKeys st entity_types) []
  simpa [VectorStore.search_entities] using h

/-- **C10.** Every string `extract_query_entities` returns is entirely
lowercase (a fixed point of `pyLower`) and the returned list contains no
duplicates. -/
theorem extract_query_entities_lower_nodup (q : String) :
    (∀ s ∈ Retriever.extract_query_entities q, pyLower s = s) ∧
    (Retriever.extract_query_entities q).Nodup := by
  constructor
  · intro s hs
    have hs2 : s ∈ Retriever.extract_query_entities q := hs
    simp only [Retriever.extract_query_entities] at hs2
    have hs' := dedupFirst_subset _ _ _ hs2
    rcases List.mem_append.mp hs' with h | h
    · exact tokenize_pyLower_fixed (List.mem_filter.mp h).1
    · rcases List.mem_map.mp h with ⟨x, _, rfl⟩
      exact pyLower_pyLower x
  · simp only [Retriever.extract_query_entities]
    exact (dedupFirst_nodup [] _).1

/-- Closed instance of C10 at the query `"Alice works"`. -/
theorem extract_query_entities_lower_nodup_witness :
    pyLower "alice" = "alice" ∧
    (Retriever.extract_query_entities "Alice works").Nodup :=
  ⟨(extract_query_entities_lower_nodup "Alice works").1 "alice" (by decide),
   (extract_query_entities_lower_nodup "Alice works").2⟩

/-- **C7.** For equal-length vectors `cosine_similarity` lands in `[-1, 1]`,
and whenever either vector has zero magnitude it returns exactly `0` (the
real-number model has no NaN, and the zero test is an explicit branch, not
an error path). -/
theorem cosine_similarity_bounds :
    (∀ a b : List ℝ, a.length = b.length →
      -1 ≤ cosine_similarity a b ∧ cosine_similarity a b ≤ 1) ∧
    (∀ a b : List ℝ, normL a = 0 ∨ normL b = 0 → cosine_similarity a b = 0) := by
  constructor
  · intro a b hlen
    unfold cosine_similarity
    rw [if_neg (by simp [hlen])]
    by_cases hz : normL a = 0 ∨ normL b = 0
    · rw [if_pos hz]
      norm_num
    · rw [if_neg hz]
      push_neg at hz
      have hna : 0 < normL a := lt_of_le_of_ne (Real.sqrt_nonneg _) (Ne.symm hz.1)
      have hnb : 0 < normL b := lt_of_le_of_ne (Real.sqrt_nonneg _) (Ne.symm hz.2)
      have hd : |dotL a b| ≤ normL a * normL b := by
        rw [← Real.sqrt_sq_eq_abs]
        calc Real.sqrt ((dotL a b) ^ 2)
            ≤ Real.sqrt (sumSq a * sumSq b) := Real.sqrt_le_sqrt (dotL_sq_le a b)
          _ = normL a * normL b := by
              unfold normL
              exact Real.sqrt_mul (sumSq_nonneg a) (sumSq b)
      have habs : |dotL a b / (normL a * normL b)| ≤ 1 := by
        rw [abs_div, abs_of_pos (mul_pos hna hnb)]
        exact (div_le_one (mul_pos hna hnb)).mpr hd
      exact abs_le.mp habs
  · intro a b hz
    unfold cosine_similarity
    by_cases hl : a.length ≠ b.length
    · rw [if_pos hl]
    · rw [if_neg hl, if_pos hz]

/-- Closed instance of C7: a zero vector scores exactly `0`, and a concrete
equal-length pair stays within `[-1, 1]`. -/
theorem cosine_similarity_bounds_witness :
    cosine_similarity [(0 : ℝ), 0] [1, 1] = 0 ∧
    -1 ≤ cosine_similarity [(1 : ℝ), 0] [0, 1] ∧
    cosine_similarity [(1 : ℝ), 0] [0, 1] ≤ 1 := by
  refine ⟨cosine_similarity_bounds.2 [0, 0] [1, 1] (Or.inl ?_),
    (cosine_similarity_bounds.1 [1, 0] [0, 1] rfl).1,
    (cosine_similarity_bounds.1 [1, 0] [0, 1] rfl).2⟩
  unfold normL
  have h0 : sumSq [(0 : ℝ), 0] = 0 := by norm_num [sumSq]
  rw [h0, Real.sqrt_zero]

/-- **C4.** `search_similar_chunks` returns at most `top_k` results, each at
or above `min_similarity`, sorted non-increasingly by similarity, and with
ties kept in original chunk insertion order (the output restricted to any
single similarity value is a sublist of the insertion-ordered scored list). -/
theorem search_similar_chunks_topk_threshold_sorted_stable (st : VectorStore)
    (q : List ℝ) (top_k : ℕ) (m : ℝ) :
    ((st.search_similar_chunks q top_k m).length ≤ top_k) ∧
    (∀ r ∈ st.search_similar_chunks q top_k m, m ≤ r.similarity) ∧
    ((st.search_similar_chunks q top_k m).Pairwise
      (fun a b => b.similarity ≤ a.similarity)) ∧
    (∀ s : ℝ, List.Sublist
      ((st.search_similar_chunks q top_k m).filter
        (fun r => decide (r.similarity = s)))
      ((scoredChunks st q m).filter (fun r => decide (r.similarity = s)))) := by
  unfold VectorStore.search_similar_chunks
  by_cases he : st.chunks.isEmpty
  · simp [he]
  · rw [if_neg (by simp [he])]
    refine ⟨?_, ?_, ?_, ?_⟩
    · simp only [List.length_take]
      omega
    · intro r hr
      have hr1 := List.mem_of_mem_take hr
      have hr2 := (sortDescBy_perm (fun r => r.similarity) (scoredChunks st q m)).mem_iff.mp hr1
      obtain ⟨c, _, e, _, _, _, _, hm⟩ := mem_scoredChunks hr2
      exact hm
    · exact List.Pairwise.sublist (List.take_sublist _ _)
        (sortDescBy_pairwise (fun r => r.similarity) (scoredChunks st q m))
    · intro s
      have h1 := List.Sublist.filter (fun r => decide (r.similarity = s))
        (List.take_sublist top_k
          (sortDescBy (fun r => r.similarity) (scoredChunks st q m)))
      have h2 := sortDescBy_filter_key (fun r => r.similarity) s (scoredChunks st q m)
      exact h2 ▸ h1

/-- With every entity named, the inner entity loop succeeds and never
touches documents or chunks. -/
theorem addEntityList_wf (doc_id ty : String) :
    ∀ (es : List EntityIn) (st : VectorStore), (∀ e ∈ es, e.name.isSome) →
      (VectorStore.addEntityList doc_id ty st es).2 = true ∧
      (VectorStore.addEntityList doc_id ty st es).1.documents = st.documents ∧
      (VectorStore.addEntityList doc_id ty st es).1.chunks = st.chunks
  | [], _, _ => ⟨rfl, rfl, rfl⟩
  | e :: es, st, h => by
    have he := h e (List.mem_cons_self e es)
    cases hn : e.name with
    | none => rw [hn] at he; cases he
    | some nm =>
      simp only [VectorStore.addEntityList, VectorStore.addEntity1, hn]
      exact addEntityList_wf doc_id ty es _
        fun e' he' => h e' (List.mem_cons_of_mem _ he')

/-- With a well-formed payload, `_add_entities` succeeds and never touches
documents or chunks. -/
theorem add_entities_wf (doc_id : String) :
    ∀ (ents : List (String × List EntityIn)) (st : VectorStore),
      (∀ p ∈ ents, ∀ e ∈ p.2, e.name.isSome) →
      (VectorStore.add_entities doc_id st ents).2 = true ∧
      (VectorStore.add_entities doc_id st ents).1.documents = st.documents ∧
      (VectorStore.add_entities doc_id st ents).1.chunks = st.chunks
  | [], _, _ => ⟨rfl, rfl, rfl⟩
  | (ty, es) :: rest, st, h => by
    simp only [VectorStore.add_entities]
    obtain ⟨h1, h2, h3⟩ := addEntityList_wf doc_id ty es
      { st with entities_by_type := ensureKey ty st.entities_by_type }
      (fun e he => h (ty, es) (List.mem_cons_self _ _) e he)
    cases hres : VectorStore.addEntityList doc_id ty
      { st with entities_by_type := ensureKey ty st.entities_by_type } es with
    | mk st2 b =>
      rw [hres] at h1 h2 h3
      cases b with
      | false => cases h1
      | true =>
        obtain ⟨h4, h5, h6⟩ := add_entities_wf doc_id rest st2
          fun p hp => h p (List.mem_cons_of_mem _ hp)
        exact ⟨h4, h5.trans h2, h6.trans h3⟩

/-- The chunk-appending fold: documents untouched, chunks appended tagged. -/
theorem chunkFold_state (doc_id title : String) :
    ∀ (chunks : List Chunk) (st : VectorStore),
      (addChunksFold doc_id title chunks st).chunks =
          st.chunks ++ chunks.map (tagChunk doc_id title) ∧
      (addChunksFold doc_id title chunks st).documents = st.documents
  | [], st => by simp [addChunksFold]
  | c :: cs, st => by
    simp only [addChunksFold, List.foldl_cons, List.map_cons]
    obtain ⟨h1, h2⟩ := chunkFold_state doc_id title cs
      { st with chunks := st.chunks ++ [tagChunk doc_id title c],
                chunk_index := updAssoc c.id (tagChunk doc_id title c) st.chunk_index }
    simp only [addChunksFold] at h1 h2
    constructor
    · rw [h1]
      simp
    · exact h2

/-- `_add_relationships` never touches documents or chunks. -/
theorem add_relationships_state (doc_id : String) (st : VectorStore) (rels : List RelIn) :
    (VectorStore.add_relationships doc_id st rels).documents = st.documents ∧
    (VectorStore.add_relationships doc_id st rels).chunks = st.chunks := by
  unfold VectorStore.add_relationships
  refine foldl_preserve
    (fun s => s.documents = st.documents ∧ s.chunks = st.chunks) _ rels st
    ⟨rfl, rfl⟩ ?_
  intro s r hs _
  exact hs

/-- Looking up a key right after writing it returns the written value. -/
theorem lookupA_updAssoc_self {α : Type} (k : String) (v : α) :
    ∀ l : List (String × α), lookupA k (updAssoc k v l) = some v
  | [] => by simp [updAssoc, lookupA]
  | (k', v') :: rest => by
    by_cases h : k' = k
    · simp [updAssoc, h, lookupA]
    · simp [updAssoc, h, lookupA, lookupA_updAssoc_self k v rest]

/-- Overwriting an existing key does not change the dict's size. -/
theorem length_updAssoc_of_mem {α : Type} (k : String) (v : α) :
    ∀ l : List (String × α), (lookupA k l).isSome →
      (updAssoc k v l).length = l.length
  | [], h => by simp [lookupA] at h
  | (k', v') :: rest, h => by
    by_cases hk : k' = k
    · simp [updAssoc, hk]
    · simp only [lookupA, hk, if_false] at h
      simp [updAssoc, hk, length_updAssoc_of_mem k v rest h]

/-- On a well-formed payload, `add_document` succeeds, writes the document
record and appends the tagged chunks. -/
theorem add_document_wf (st : VectorStore) (doc_id title : String)
    (chunks : List Chunk) (ed : EntitiesData) (hwf : wfPayload ed) :
    (st.add_document doc_id title chunks ed).2 = true ∧
    (st.add_document doc_id title chunks ed).1.documents =
      updAssoc doc_id (docRecord doc_id title chunks ed) st.documents ∧
    (st.add_document doc_id title chunks ed).1.chunks =
      st.chunks ++ chunks.map (tagChunk doc_id title) := by
  simp only [VectorStore.add_document]
  obtain ⟨hc1, hc2⟩ := chunkFold_state doc_id title chunks
    { st with documents := updAssoc doc_id (docRecord doc_id title chunks ed) st.documents }
  obtain ⟨he1, he2, he3⟩ := add_entities_wf doc_id ed.entities
    (addChunksFold doc_id title chunks
      { st with documents := updAssoc doc_id (docRecord doc_id title chunks ed) st.documents })
    hwf
  cases hres : VectorStore.add_entities doc_id
    (addChunksFold doc_id title chunks
      { st with documents := updAssoc doc_id (docRecord doc_id title chunks ed) st.documents })
    ed.entities with
  | mk st3 b =>
    rw [hres] at he1 he2 he3
    cases b with
    | false => cases he1
    | true =>
      obtain ⟨hr1, hr2⟩ := add_relationships_state doc_id st3 ed.relationships
      refine ⟨rfl, ?_, ?_⟩
      · rw [hr1, he2, hc2]
      · rw [hr2, he3, hc1]

/-- **C8.** `add_document` never checks `doc_id` uniqueness: re-adding an
already-present id succeeds, overwrites the stored document record, appends
the chunks again, and afterwards `get_stats` reports an unchanged document
count, a chunk count larger by `chunks.length`, and the chunk list holds
duplicate entries. -/
theorem add_document_readd_duplicates (st : VectorStore) (doc_id title : String)
    (chunks : List Chunk) (ed : EntitiesData) (hwf : wfPayload ed)
    (hch : chunks ≠ []) (st1 st2 : VectorStore) (b1 b2 : Bool)
    (h1 : st.add_document doc_id title chunks ed = (st1, b1))
    (h2 : st1.add_document doc_id title chunks ed = (st2, b2)) :
    b2 = true ∧
    (VectorStore.get_stats st2).documents = (VectorStore.get_stats st1).documents ∧
    (VectorStore.get_stats st2).chunks =
      (VectorStore.get_stats st1).chunks + chunks.length ∧
    lookupA doc_id st2.documents = some (docRecord doc_id title chunks ed) ∧
    ¬ st2.chunks.Nodup := by
  obtain ⟨hb1, hd1, hk1⟩ := add_document_wf st doc_id title chunks ed hwf
  obtain ⟨hb2, hd2, hk2⟩ := add_document_wf st1 doc_id title chunks ed hwf
  rw [h1] at hb1 hd1 hk1
  rw [h2] at hb2 hd2 hk2
  simp only at hb1 hd1 hk1 hb2 hd2 hk2
  have hT : chunks.map (tagChunk doc_id title) ≠ [] := by
    intro h
    exact hch (List.map_eq_nil_iff.mp h)
  obtain ⟨t0, ht0⟩ := List.exists_mem_of_ne_nil _ hT
  refine ⟨hb2, ?_, ?_, ?_, ?_⟩
  · show st2.documents.length = st1.documents.length
    rw [hd2]
    refine length_updAssoc_of_mem _ _ _ ?_
    rw [hd1, lookupA_updAssoc_self]
    rfl
  · show st2.chunks.length = st1.chunks.length + chunks.length
    rw [hk2]
    simp
  · rw [hd2, lookupA_updAssoc_self]
  · intro hnd
    rw [hk2] at hnd
    have hdisj := (List.nodup_append.mp hnd).2.2
    refine hdisj ?_ ht0
    rw [hk1]
    exact List.mem_append_right _ ht0

/-- Closed instance of C8: adding the same document twice to the empty
store. -/
theorem add_document_readd_duplicates_witness :
    ((emptyStore.add_document "d" "T" [chC1] edOk).1.add_document "d" "T"
        [chC1] edOk).2 = true ∧
    (VectorStore.get_stats
        ((emptyStore.add_document "d" "T" [chC1] edOk).1.add_document "d" "T"
          [chC1] edOk).1).documents =
      (VectorStore.get_stats
        (emptyStore.add_document "d" "T" [chC1] edOk).1).documents ∧
    (VectorStore.get_stats
        ((emptyStore.add_document "d" "T" [chC1] edOk).1.add_document "d" "T"
          [chC1] edOk).1).chunks =
      (VectorStore.get_stats
        (emptyStore.add_document "d" "T" [chC1] edOk).1).chunks +
        [chC1].length ∧
    lookupA "d" ((emptyStore.add_document "d" "T" [chC1] edOk).1.add_document
        "d" "T" [chC1] edOk).1.documents =
      some (docRecord "d" "T" [chC1] edOk) ∧
    ¬ ((emptyStore.add_document "d" "T" [chC1] edOk).1.add_document "d" "T"
        [chC1] edOk).1.chunks.Nodup :=
  add_document_readd_duplicates emptyStore "d" "T" [chC1] edOk
    (by
      intro p hp e he
      rcases List.mem_singleton.mp hp with rfl
      rcases List.mem_singleton.mp he with rfl
      rfl)
    (List.cons_ne_nil _ _) _ _ _ _ rfl rfl

/-- **C1 (refuting the claim's atomicity).** On a malformed entity payload
(the entity lacks a `"name"` key) `add_document` returns `false`, yet the
document metadata record, the chunk, and the freshly created (empty) entity
type bucket all remain in the store: ingestion is *not* rejected as a unit,
the store visibly differs from its pre-call state. -/
theorem add_document_failure_leaves_partial_state :
    (emptyStore.add_document "d1" "T" [chC1] edBad).2 = false ∧
    (emptyStore.add_document "d1" "T" [chC1] edBad).1.documents.length = 1 ∧
    (emptyStore.add_document "d1" "T" [chC1] edBad).1.chunks.length = 1 ∧
    (emptyStore.add_document "d1" "T" [chC1] edBad).1.entities_by_type.length = 1 ∧
    emptyStore.documents.length = 0 ∧ emptyStore.chunks.length = 0 :=
  ⟨rfl, rfl, rfl, rfl, rfl, rfl⟩

/-- A shape mismatch never reaches the arithmetic: the `except` branch of
`cosine_similarity` turns it into a score of exactly `0`. -/
theorem cosine_similarity_length_mismatch (a b : List ℝ) (h : a.length ≠ b.length) :
    cosine_similarity a b = 0 := by
  unfold cosine_similarity
  rw [if_pos h]

/-- Evaluation: searching the store holding only the mis-sized chunk with
`min_similarity = 0` returns that chunk. -/
theorem stBad_eval : VectorStore.search_similar_chunks stBad qW 5 0 = [resB] := by
  have hc : cosine_similarity qW [1] = 0 :=
    cosine_similarity_length_mismatch qW [1] (by simp [qW])
  have hcond : (0 : ℝ) ≤ cosine_similarity qW [1] := le_of_eq hc.symm
  unfold VectorStore.search_similar_chunks
  rw [if_neg (by simp [stBad])]
  have hsc : scoredChunks stBad qW 0 = [resB] := by
    unfold scoredChunks stBad chB
    simp only [List.filterMap_cons, List.filterMap_nil]
    rw [if_pos hcond]
    rfl
  rw [hsc]
  simp [sortDescBy, insertDescBy]

/-- The probe query has unit norm. -/
theorem normL_qW : normL qW = 1 := by
  have hss : sumSq qW = 1 := by norm_num [sumSq, qW]
  unfold normL
  rw [hss]
  exact Real.sqrt_one

/-- The stored well-sized embedding has unit norm. -/
theorem normL_e10 : normL [(1 : ℝ), 0] = 1 := by
  have hss : sumSq [(1 : ℝ), 0] = 1 := by norm_num [sumSq]
  unfold normL
  rw [hss]
  exact Real.sqrt_one

/-- The probe query matches the well-sized chunk perfectly. -/
theorem cosine_qW_e10 : cosine_similarity qW [(1 : ℝ), 0] = 1 := by
  unfold cosine_similarity
  rw [if_neg (by simp [qW])]
  rw [if_neg (by rw [normL_qW, normL_e10]; norm_num)]
  have hd : dotL qW [(1 : ℝ), 0] = 1 := by norm_num [dotL, qW]
  rw [hd, normL_qW, normL_e10]
  norm_num

/-- Evaluation: searching the store holding only the well-sized chunk at the
retriever's default threshold returns it. -/
theorem stGood_eval :
    VectorStore.search_similar_chunks stGood qW 5
      Retriever.min_similarity_threshold = [resA] := by
  have hcond : Retriever.min_similarity_threshold ≤ cosine_similarity qW [(1 : ℝ), 0] := by
    rw [cosine_qW_e10]
    norm_num [Retriever.min_similarity_threshold]
  unfold VectorStore.search_similar_chunks
  rw [if_neg (by simp [stGood])]
  have hsc : scoredChunks stGood qW Retriever.min_similarity_threshold = [resA] := by
    unfold scoredChunks stGood chA
    simp only [List.filterMap_cons, List.filterMap_nil]
    rw [if_pos hcond]
    rfl
  rw [hsc]
  simp [sortDescBy, insertDescBy]

/-- **C2 counterexample.** With `min_similarity = 0`, a stored chunk whose
embedding length (1) differs from the query's (2) *does* appear in the
result list: the shape error is silently converted to similarity `0.0`,
which passes the inclusive threshold.  The claim "never appears, for every
`min_similarity`" is false on the code. -/
theorem missized_chunk_returned_at_zero_threshold :
    chB.embedding = some [1] ∧ ([1] : List ℝ).length ≠ qW.length ∧
    chB ∈ stBad.chunks ∧
    (VectorStore.search_similar_chunks stBad qW 5 0).map
      (fun r => r.chunk_id) = ["b"] := by
  refine ⟨rfl, by simp [qW], List.mem_singleton_self chB, ?_⟩
  rw [stBad_eval]
  rfl

/-- **C2 (amended).** A mis-sized chunk is never numerically compared —
`cosine_similarity` turns the shape error into similarity exactly `0` — so
whenever `min_similarity` is positive (the retriever always passes `0.1`)
every returned result stems from a chunk whose embedding has exactly the
query's length; with `min_similarity ≤ 0` the mis-sized chunk can appear,
scored `0`. -/
theorem search_similar_chunks_rejects_missized (st : VectorStore) (q : List ℝ)
    (top_k : ℕ) (m : ℝ) (hm : 0 < m) :
    ∀ r ∈ st.search_similar_chunks q top_k m,
      ∃ c ∈ st.chunks, ∃ e, c.embedding = some e ∧ e.length = q.length ∧
        r.chunk_id = c.id ∧ r.similarity = cosine_similarity q e := by
  intro r hr
  unfold VectorStore.search_similar_chunks at hr
  by_cases he : st.chunks.isEmpty
  · rw [if_pos (by simp [he])] at hr
    cases hr
  · rw [if_neg (by simp [he])] at hr
    have hr1 := List.mem_of_mem_take hr
    have hr2 := (sortDescBy_perm (fun r : SearchResult => r.similarity) _).mem_iff.mp hr1
    obtain ⟨c, hc, e, hemb, hid, _, hsim, hms⟩ := mem_scoredChunks hr2
    refine ⟨c, hc, e, hemb, ?_, hid, hsim⟩
    by_contra hne
    have h0 : cosine_similarity q e = 0 :=
      cosine_similarity_length_mismatch q e fun hh => hne hh.symm
    rw [h0] at hsim
    rw [hsim] at hms
    exact absurd (lt_of_lt_of_le hm hms) (lt_irrefl 0)

/-- Closed instance of the amended C2 at the retriever's default threshold. -/
theorem search_similar_chunks_rejects_missized_witness :
    ∃ c ∈ stGood.chunks, ∃ e, c.embedding = some e ∧ e.length = qW.length ∧
      resA.chunk_id = c.id ∧ resA.similarity = cosine_similarity qW e :=
  search_similar_chunks_rejects_missized stGood qW 5
    Retriever.min_similarity_threshold
    (by norm_num [Retriever.min_similarity_threshold]) resA
    (by rw [stGood_eval]; exact List.mem_singleton_self _)

/-- Closed instance of C4 on a one-chunk store at the default threshold. -/
theorem search_similar_chunks_topk_threshold_sorted_stable_witness :
    (VectorStore.search_similar_chunks stGood qW 5
      Retriever.min_similarity_threshold).length ≤ 5 ∧
    Retriever.min_similarity_threshold ≤ resA.similarity :=
  ⟨(search_similar_chunks_topk_threshold_sorted_stable stGood qW 5
      Retriever.min_similarity_threshold).1,
   (search_similar_chunks_topk_threshold_sorted_stable stGood qW 5
      Retriever.min_similarity_threshold).2.1 resA
      (by rw [stGood_eval]; exact List.mem_singleton_self _)⟩

/-- The chunk-loop body of `graph_search` only ever appends results scored
by the claimed formula from a stored relationship. -/
theorem graphChunkStep_inv (st : VectorStore) (em : EntityMatch) (rel : RelRec)
    (hrel : rel ∈ st.relationships) (acc : GAcc) (c : Chunk)
    (hacc : ∀ res ∈ acc.results, GraphScoreSpec st res) :
    ∀ res ∈ (graphChunkStep em rel acc c).results, GraphScoreSpec st res := by
  intro res hres
  simp only [graphChunkStep] at hres
  split at hres
  · exact hacc res hres
  · split at hres
    case isTrue hmatch =>
      rcases List.mem_append.mp hres with h | h
      · exact hacc res h
      · rcases List.mem_singleton.mp h with rfl
        exact ⟨rel, hrel, rfl, hmatch, rfl, rfl, rfl⟩
    case isFalse => exact hacc res hres

/-- Every raw graph result satisfies the scoring specification. -/
theorem graphRaw_inv (st : VectorStore) (query_entities : List String) :
    ∀ res ∈ (graphRaw st query_entities).results, GraphScoreSpec st res := by
  unfold graphRaw
  refine foldl_preserve (fun acc : GAcc => ∀ res ∈ acc.results, GraphScoreSpec st res)
    _ (st.search_entities query_entities none) ⟨[], []⟩ ?_ ?_
  · intro res h
    cases h
  · intro acc em hacc _
    refine foldl_preserve (fun acc : GAcc => ∀ res ∈ acc.results, GraphScoreSpec st res)
      _ (st.get_entity_relationships em.name) acc hacc ?_
    intro acc2 rel hacc2 hrelmem
    have hrel : rel ∈ st.relationships := by
      have := hrelmem
      simp only [VectorStore.get_entity_relationships] at this
      exact (List.mem_filter.mp this).1
    refine foldl_preserve (fun acc : GAcc => ∀ res ∈ acc.results, GraphScoreSpec st res)
      _ st.chunks acc2 hacc2 ?_
    intro acc3 c hacc3 _
    exact graphChunkStep_inv st em rel hrel acc3 c hacc3

/-- **C5.** Every result `graph_search` returns is scored from one of the
store's relationships as exactly `0.9` (both endpoints occur in the chunk's
lowercased text) or `0.6` (exactly one endpoint occurs) plus the uncapped
`confidence * 0.1` bonus; the record carries that relationship's payload,
and the bonus is never clamped, so the score may exceed 1. -/
theorem graph_search_score_formula (st : VectorStore) (query_entities : List String) :
    ∀ res ∈ Retriever.graph_search query_entities st, GraphScoreSpec st res := by
  intro res hres
  unfold Retriever.graph_search at hres
  have h1 := List.mem_of_mem_take hres
  have h2 := (sortDescBy_perm
    (fun r : SearchResult => r.search_score.getD 0) _).mem_iff.mp h1
  exact graphRaw_inv st query_entities res h2

/-- Evaluation: the graph search on the concrete store yields exactly the
both-endpoints result with its uncapped score. -/
theorem stW_graph_eval : Retriever.graph_search ["alice"] stW = [resW] := rfl

/-- Closed instance of C5: the concrete result satisfies the specification
and its score `0.9 + 2 * 0.1` exceeds 1 (the bonus is not clamped). -/
theorem graph_search_score_formula_witness :
    GraphScoreSpec stW resW ∧ 1 < resW.similarity :=
  ⟨graph_search_score_formula stW ["alice"] resW
      (by rw [stW_graph_eval]; exact List.mem_singleton_self _),
   by norm_num [resW, scoreW]⟩

/-- With empty semantic input (and all graph scores present), the fusion
fold just appends every weighted graph copy. -/
theorem combine_fold_empty_seen (gr : List SearchResult) :
    ∀ acc : List SearchResult,
      (gr.foldl (fun acc g =>
        if ([] : List String).contains g.chunk_id then boostFirst g acc
        else acc ++
          [{ g with
             final_score := some (g.search_score.getD 0 * Retriever.graph_weight) }])
        acc) =
      acc ++ gr.map (fun g =>
        { g with
          final_score := some (g.search_score.getD 0 * Retriever.graph_weight) }) := by
  induction gr with
  | nil => intro acc; simp
  | cons g gs ih =>
    intro acc
    simp only [List.foldl_cons, List.map_cons]
    rw [if_neg (by simp)]
    rw [ih]
    simp

/-- `combine_and_rank_results` with an empty semantic list returns weighted
copies of graph results only. -/
theorem combine_empty_sem (gr : List SearchResult)
    (hall : ∀ g ∈ gr, g.search_score.isSome) :
    ∀ r ∈ Retriever.combine_and_rank_results [] gr,
      ∃ g ∈ gr, r =
        { g with
          final_score := some (g.search_score.getD 0 * Retriever.graph_weight) } := by
  intro r hr
  unfold Retriever.combine_and_rank_results at hr
  rw [if_pos (by
    simp only [List.all_nil, Bool.true_and, List.all_eq_true]
    intro g hg
    simpa using hall g hg)] at hr
  simp only [List.map_nil] at hr
  rw [combine_fold_empty_seen gr []] at hr
  simp only [List.nil_append] at hr
  have h1 := List.mem_of_mem_take hr
  have h2 := (sortDescBy_perm
    (fun r : SearchResult => r.final_score.getD 0) _).mem_iff.mp h1
  rcases List.mem_map.mp h2 with ⟨g, hg, rfl⟩
  exact ⟨g, hg, rfl⟩

/-- **C6.** `search` with an absent query embedding degrades to graph-only
retrieval: the semantic list is empty, entity extraction and graph
expansion still run, every returned result is a graph result annotated with
the query and the extracted entity list, and the whole pipeline is total
(no error value exists in the model to propagate). -/
theorem search_graph_only_degradation (q : String) (st : VectorStore) :
    Retriever.search q st none =
      (Retriever.combine_and_rank_results []
        (Retriever.graph_search (Retriever.extract_query_entities q) st)).map
        (fun r =>
          { r with
            query := some q,
            query_entities := some (Retriever.extract_query_entities q) }) ∧
    ∀ r ∈ Retriever.search q st none,
      r.search_type = some "graph" ∧ r.query = some q ∧
      r.query_entities = some (Retriever.extract_query_entities q) := by
  refine ⟨rfl, ?_⟩
  intro r hr
  have hr' : r ∈ (Retriever.combine_and_rank_results []
      (Retriever.graph_search (Retriever.extract_query_entities q) st)).map
      (fun r =>
        { r with
          query := some q,
          query_entities := some (Retriever.extract_query_entities q) }) := hr
  rcases List.mem_map.mp hr' with ⟨r0, hr0, rfl⟩
  have hall : ∀ g ∈ Retriever.graph_search (Retriever.extract_query_entities q) st,
      g.search_score.isSome := by
    intro g hg
    obtain ⟨rel, _, _, _, _, hss, _⟩ :=
      graph_search_score_formula st (Retriever.extract_query_entities q) g hg
    rw [hss]
    rfl
  obtain ⟨g, hg, rfl⟩ := combine_empty_sem _ hall r0 hr0
  obtain ⟨rel, _, _, _, _, _, hst⟩ :=
    graph_search_score_formula st (Retriever.extract_query_entities q) g hg
  exact ⟨hst, rfl, rfl⟩

/-- Evaluation: the degraded search on the concrete store. -/
theorem stW_search_eval : Retriever.search "alice" stW none = [resW2] := rfl

/-- Closed instance of C6 on the concrete store. -/
theorem search_graph_only_degradation_witness :
    resW2.search_type = some "graph" ∧ resW2.query = some "alice" ∧
    resW2.query_entities = some (Retriever.extract_query_entities "alice") :=
  (search_graph_only_degradation "alice" stW).2 resW2
    (by rw [stW_search_eval]; exact List.mem_singleton_self _)

/-- Boosting never changes the list's length. -/
theorem boostFirst_length (g : SearchResult) :
    ∀ l : List SearchResult, (boostFirst g l).length = l.length
  | [] => rfl
  | r :: rs => by
    simp only [boostFirst]
    by_cases h : r.chunk_id = g.chunk_id
    · rw [if_pos h]
      simp
    · rw [if_neg h]
      simp [boostFirst_length g rs]

/-- Boosting one chunk id leaves every other id's entries untouched. -/
theorem boostFirst_filter_other (g : SearchResult) (cid : String)
    (hne : g.chunk_id ≠ cid) :
    ∀ l : List SearchResult,
      (boostFirst g l).filter (fun r => r.chunk_id == cid) =
        l.filter (fun r => r.chunk_id == cid)
  | [] => rfl
  | r :: rs => by
    simp only [boostFirst]
    by_cases h : r.chunk_id = g.chunk_id
    · rw [if_pos h]
      have hrc : (r.chunk_id == cid) = false :=
        beq_eq_false_iff_ne.mpr (h ▸ hne)
      simp [List.filter_cons, hrc]
    · rw [if_neg h]
      simp [List.filter_cons, boostFirst_filter_other g cid hne rs]

/-- Boosting the unique entry with the graph result's chunk id rewrites
exactly that entry the way the source's in-place update does. -/
theorem boostFirst_filter_self (g : SearchResult) :
    ∀ (l : List SearchResult) (e : SearchResult),
      l.filter (fun r => r.chunk_id == g.chunk_id) = [e] →
      (boostFirst g l).filter (fun r => r.chunk_id == g.chunk_id) =
        [{ e with
           final_score := some (e.final_score.getD 0 +
             g.search_score.getD 0 * Retriever.graph_weight),
           search_type := some "hybrid",
           relationship := if g.relationship.isSome then g.relationship
                           else e.relationship }]
  | [], e, h => by simp at h
  | r :: rs, e, h => by
    by_cases hr : r.chunk_id = g.chunk_id
    · have hbeq : (r.chunk_id == g.chunk_id) = true := beq_iff_eq.mpr hr
      simp only [List.filter_cons, hbeq, if_true] at h
      have hre : r = e := (List.cons_eq_cons.mp h).1
      have hrest : rs.filter (fun r => r.chunk_id == g.chunk_id) = [] :=
        (List.cons_eq_cons.mp h).2
      subst hre
      simp only [boostFirst, if_pos hr, List.filter_cons, hbeq, if_true, hrest]
    · have hbeq : (r.chunk_id == g.chunk_id) = false := beq_eq_false_iff_ne.mpr hr
      simp only [List.filter_cons, hbeq] at h
      simp only [boostFirst, if_neg hr, List.filter_cons, hbeq]
      simp only [Bool.false_eq_true, if_false] at h ⊢
      exact boostFirst_filter_self g rs e h

/-- Processing graph results with other chunk ids never changes the entries
carrying a fixed chunk id. -/
theorem graphFold_filter_other (seen : List String) (cid : String) :
    ∀ (gl : List SearchResult) (acc : List SearchResult),
      (∀ g' ∈ gl, g'.chunk_id ≠ cid) →
      (gl.foldl (fun acc g =>
        if seen.contains g.chunk_id then boostFirst g acc
        else acc ++
          [{ g with
             final_score := some (g.search_score.getD 0 * Retriever.graph_weight) }])
        acc).filter (fun r => r.chunk_id == cid) =
      acc.filter (fun r => r.chunk_id == cid)
  | [], _, _ => rfl
  | g' :: gs, acc, hne => by
    simp only [List.foldl_cons]
    have hg' := hne g' (List.mem_cons_self _ _)
    have hrest : ∀ x ∈ gs, x.chunk_id ≠ cid :=
      fun x hx => hne x (List.mem_cons_of_mem _ hx)
    by_cases hs : seen.contains g'.chunk_id = true
    · rw [if_pos hs, graphFold_filter_other seen cid gs (boostFirst g' acc) hrest]
      exact boostFirst_filter_other g' cid hg' acc
    · rw [if_neg hs, graphFold_filter_other seen cid gs _ hrest,
        List.filter_append]
      have hfc : (g'.chunk_id == cid) = false := beq_eq_false_iff_ne.mpr hg'
      simp [List.filter_cons, hfc]

/-- The fusion fold grows the list by at most one entry per graph result. -/
theorem graphFold_length (seen : List String) :
    ∀ (gl acc : List SearchResult),
      (gl.foldl (fun acc g =>
        if seen.contains g.chunk_id then boostFirst g acc
        else acc ++
          [{ g with
             final_score := some (g.search_score.getD 0 * Retriever.graph_weight) }])
        acc).length ≤ acc.length + gl.length
  | [], acc => by simp
  | g :: gs, acc => by
    simp only [List.foldl_cons]
    by_cases hs : seen.contains g.chunk_id = true
    · rw [if_pos hs]
      have h := graphFold_length seen gs (boostFirst g acc)
      rw [boostFirst_length] at h
      simp only [List.length_cons]
      omega
    · rw [if_neg hs]
      have h := graphFold_length seen gs
        (acc ++
          [{ g with
             final_score := some (g.search_score.getD 0 * Retriever.graph_weight) }])
      have hlen : (acc ++
          [{ g with
             final_score := some (g.search_score.getD 0 * Retriever.graph_weight) }]).length =
          acc.length + 1 := by simp
      rw [hlen] at h
      simp only [List.length_cons]
      omega

/-- Seeding commutes with filtering by chunk id. -/
theorem filter_map_seed (sem : List SearchResult) (cid : String) :
    (sem.map (fun r =>
      { r with
        final_score := some (r.search_score.getD 0 * Retriever.semantic_weight) })).filter
      (fun r => r.chunk_id == cid) =
    (sem.filter (fun r => r.chunk_id == cid)).map (fun r =>
      { r with
        final_score := some (r.search_score.getD 0 * Retriever.semantic_weight) }) := by
  induction sem with
  | nil => rfl
  | cons x xs ih =>
    simp only [List.map_cons, List.filter_cons]
    by_cases h : (x.chunk_id == cid) = true
    · simp [h, ih]
    · simp only [Bool.not_eq_true] at h
      simp [h, ih]

/-- In a list with pairwise-distinct chunk ids, filtering by a member's id
returns exactly that member. -/
theorem filter_eq_singleton_of_nodup :
    ∀ (l : List SearchResult) (s : SearchResult),
      (l.map (fun r => r.chunk_id)).Nodup → s ∈ l →
      l.filter (fun r => r.chunk_id == s.chunk_id) = [s]
  | [], _, _, hs => by cases hs
  | x :: xs, s, hnd, hs => by
    simp only [List.map_cons, List.nodup_cons] at hnd
    obtain ⟨hx_not, hnd'⟩ := hnd
    rcases List.mem_cons.mp hs with rfl | hs'
    · simp only [List.filter_cons, beq_self_eq_true, if_true]
      have hnil : xs.filter (fun r => r.chunk_id == s.chunk_id) = [] := by
        refine List.filter_eq_nil_iff.mpr ?_
        intro y hy hpy
        have heq : y.chunk_id = s.chunk_id := by simpa using hpy
        exact hx_not (heq ▸ List.mem_map_of_mem (fun r => r.chunk_id) hy)
      rw [hnil]
    · have hne : (x.chunk_id == s.chunk_id) = false := by
        refine beq_eq_false_iff_ne.mpr ?_
        intro heq
        exact hx_not (heq ▸ List.mem_map_of_mem (fun r => r.chunk_id) hs')
      simp only [List.filter_cons, hne, Bool.false_eq_true, if_false]
      exact filter_eq_singleton_of_nodup xs s hnd' hs'

/-- **C3.** When a chunk id occurs in both result lists (each list carrying
pairwise-distinct ids and the pipeline's `search_score` key, within the
pipeline's size limits), the fused output holds exactly one entry for it:
the semantic entry re-scored to
`search_score * semantic_weight + graph search_score * graph_weight`,
relabelled `"hybrid"`, with the graph result's relationship attached. -/
theorem combine_and_rank_merges_duplicates
    (sem gr : List SearchResult) (s g : SearchResult)
    (hsem_nd : (sem.map (fun r => r.chunk_id)).Nodup)
    (hgr_nd : (gr.map (fun r => r.chunk_id)).Nodup)
    (hs : s ∈ sem) (hg : g ∈ gr) (hid : g.chunk_id = s.chunk_id)
    (hsem_ss : ∀ r ∈ sem, r.search_score.isSome)
    (hgr_ss : ∀ r ∈ gr, r.search_score.isSome)
    (hlen_s : sem.length ≤ Retriever.max_semantic_results)
    (hlen_g : gr.length ≤ Retriever.max_graph_results)
    (hrel : g.relationship.isSome) :
    (Retriever.combine_and_rank_results sem gr).filter
        (fun r => r.chunk_id == s.chunk_id) =
      [{ s with
         final_score := some (s.search_score.getD 0 * Retriever.semantic_weight +
           g.search_score.getD 0 * Retriever.graph_weight),
         search_type := some "hybrid",
         relationship := g.relationship }] := by
  have hguard : (sem.all (fun r => r.search_score.isSome) &&
      gr.all (fun r => r.search_score.isSome)) = true := by
    rw [Bool.and_eq_true, List.all_eq_true, List.all_eq_true]
    exact ⟨hsem_ss, hgr_ss⟩
  simp only [Retriever.combine_and_rank_results]
  rw [if_pos hguard]
  obtain ⟨l1, l2, hgr⟩ := List.append_of_mem hg
  subst hgr
  rw [List.map_append, List.map_cons] at hgr_nd
  obtain ⟨nd1, nd2, disj⟩ := List.nodup_append.mp hgr_nd
  have hgnotl2 : g.chunk_id ∉ l2.map (fun r => r.chunk_id) :=
    (List.nodup_cons.mp nd2).1
  have hgl1 : ∀ x ∈ l1, x.chunk_id ≠ s.chunk_id := by
    intro x hx heq
    refine disj (List.mem_map_of_mem _ hx) ?_
    rw [heq, ← hid]
    exact List.mem_cons_self _ _
  have hgl2 : ∀ x ∈ l2, x.chunk_id ≠ s.chunk_id := by
    intro x hx heq
    refine hgnotl2 ?_
    rw [hid, ← heq]
    exact List.mem_map_of_mem _ hx
  have hseen : ((sem.map (fun r => r.chunk_id)).contains g.chunk_id) = true := by
    have hmem : g.chunk_id ∈ sem.map (fun r => r.chunk_id) := by
      rw [hid]
      exact List.mem_map_of_mem _ hs
    exact List.elem_iff.mpr hmem
  have hseed : ((sem.map (fun r =>
      { r with
        final_score := some (r.search_score.getD 0 * Retriever.semantic_weight) })).filter
      (fun r => r.chunk_id == s.chunk_id)) =
      [{ s with
         final_score := some (s.search_score.getD 0 * Retriever.semantic_weight) }] := by
    rw [filter_map_seed, filter_eq_singleton_of_nodup sem s hsem_nd hs]
    rfl
  have h1 := graphFold_filter_other (sem.map (fun r => r.chunk_id)) s.chunk_id l1
    (sem.map (fun r =>
      { r with
        final_score := some (r.search_score.getD 0 * Retriever.semantic_weight) }))
    hgl1
  rw [hseed] at h1
  have h2 : (boostFirst g (l1.foldl (fun acc g =>
      if (sem.map (fun r => r.chunk_id)).contains g.chunk_id then boostFirst g acc
      else acc ++
        [{ g with
           final_score := some (g.search_score.getD 0 * Retriever.graph_weight) }])
      (sem.map (fun r =>
        { r with
          final_score := some (r.search_score.getD 0 * Retriever.semantic_weight) })))).filter
      (fun r => r.chunk_id == s.chunk_id) =
      [{ s with
         final_score := some (s.search_score.getD 0 * Retriever.semantic_weight +
           g.search_score.getD 0 * Retriever.graph_weight),
         search_type := some "hybrid",
         relationship := g.relationship }] := by
    have hb := boostFirst_filter_self g _
      { s with
        final_score := some (s.search_score.getD 0 * Retriever.semantic_weight) }
      (by rw [hid]; exact h1)
    rw [hid] at hb
    rw [hb]
    have hite : (if g.relationship.isSome then g.relationship
        else ({ s with
          final_score := some (s.search_score.getD 0 * Retriever.semantic_weight) } :
            SearchResult).relationship) = g.relationship := if_pos hrel
    rw [hite]
    rfl
  have h3 := graphFold_filter_other (sem.map (fun r => r.chunk_id)) s.chunk_id l2
    (boostFirst g (l1.foldl (fun acc g =>
      if (sem.map (fun r => r.chunk_id)).contains g.chunk_id then boostFirst g acc
      else acc ++
        [{ g with
           final_score := some (g.search_score.getD 0 * Retriever.graph_weight) }])
      (sem.map (fun r =>
        { r with
          final_score := some (r.search_score.getD 0 * Retriever.semantic_weight) }))))
    hgl2
  rw [h2] at h3
  simp only [List.foldl_append, List.foldl_cons]
  rw [if_pos hseen]
  have hlen1 := graphFold_length (sem.map (fun r => r.chunk_id)) l1
    (sem.map (fun r =>
      { r with
        final_score := some (r.search_score.getD 0 * Retriever.semantic_weight) }))
  have hlen2 := graphFold_length (sem.map (fun r => r.chunk_id)) l2
    (boostFirst g (l1.foldl (fun acc g =>
      if (sem.map (fun r => r.chunk_id)).contains g.chunk_id then boostFirst g acc
      else acc ++
        [{ g with
           final_score := some (g.search_score.getD 0 * Retriever.graph_weight) }])
      (sem.map (fun r =>
        { r with
          final_score := some (r.search_score.getD 0 * Retriever.semantic_weight) }))))
  rw [boostFirst_length] at hlen2
  rw [List.length_map] at hlen1
  have hglen : l1.length + (l2.length + 1) ≤ Retriever.max_graph_results := by
    simpa using hlen_g
  simp only [Retriever.max_semantic_results] at hlen_s
  simp only [Retriever.max_graph_results] at hglen
  rw [List.take_of_length_le (by
    rw [(sortDescBy_perm (fun r : SearchResult => r.final_score.getD 0) _).length_eq]
    simp only [Retriever.max_semantic_results, Retriever.max_graph_results]
    omega)]
  have hperm := (sortDescBy_perm (fun r : SearchResult => r.final_score.getD 0)
    (l2.foldl (fun acc g =>
      if (sem.map (fun r => r.chunk_id)).contains g.chunk_id then boostFirst g acc
      else acc ++
        [{ g with
           final_score := some (g.search_score.getD 0 * Retriever.graph_weight) }])
      (boostFirst g (l1.foldl (fun acc g =>
        if (sem.map (fun r => r.chunk_id)).contains g.chunk_id then boostFirst g acc
        else acc ++
          [{ g with
             final_score := some (g.search_score.getD 0 * Retriever.graph_weight) }])
        (sem.map (fun r =>
          { r with
            final_score := some (r.search_score.getD 0 *
              Retriever.semantic_weight) })))))).filter
    (fun r => r.chunk_id == s.chunk_id)
  rw [h3] at hperm
  exact List.perm_singleton.mp hperm

/-- Closed instance of C3: similarity 0.8 and graph score 0.9 under weights
0.7/0.3 fuse into a single hybrid entry with final score 0.83. -/
theorem combine_and_rank_merges_duplicates_witness :
    (Retriever.combine_and_rank_results [semW] [gW]).filter
        (fun r => r.chunk_id == semW.chunk_id) =
      [{ semW with
         final_score := some (semW.search_score.getD 0 * Retriever.semantic_weight +
           gW.search_score.getD 0 * Retriever.graph_weight),
         search_type := some "hybrid",
         relationship := gW.relationship }] ∧
    semW.search_score.getD 0 * Retriever.semantic_weight +
      gW.search_score.getD 0 * Retriever.graph_weight = 0.83 := by
  constructor
  · refine combine_and_rank_merges_duplicates [semW] [gW] semW gW ?_ ?_
      (List.mem_singleton_self _) (List.mem_singleton_self _) rfl ?_ ?_ ?_ ?_ rfl
    · simp
    · simp
    · intro r hr
      rcases List.mem_singleton.mp hr with rfl
      rfl
    · intro r hr
      rcases List.mem_singleton.mp hr with rfl
      rfl
    · simp [Retriever.max_semantic_results]
    · simp [Retriever.max_graph_results]
  · norm_num [semW, gW, Retriever.semantic_weight, Retriever.graph_weight]
